import Mathlib

/-!
Verification of the xcreport attribution-and-aggregation pipeline.

Shallow embedding of the Rust sources of `xcreport` (coverage-report
attribution tool).  The repository carries two iterations of the code:

* the older one: `main.rs` (with `mods/errors.rs`), whose `load_squads_file`
  validates the ownership CSV header;
* the newer one: `model.rs`, `cli.rs`, `df.rs`, `fs.rs`, `err.rs`, which hold
  the data model, argument parsing, and the dataframe pipeline.

Machine integers (`usize`) are modelled as `Nat`; the `f32` / `f64` coverage
numbers are modelled as `ℚ`; fallible Rust functions returning
`Result<T, E>` are modelled as `Except E T`.  The filesystem and the
`Path` probes performed by the CLI are modelled as explicit parameters
(`String → Option String` for file contents, `Option Bool` for an existence
probe whose `none` case is an I/O error).
-/

namespace XCReport

/-! ## Error types (err.rs, errors.rs, mods/errors.rs) -/

/-- `FilePathError` from `err.rs` (the newer iteration; the older one lacks
`AlreadyExists`). -/
inductive FilePathError where
  | NotFound
  | AlreadyExists
  | InvalidType (extension : String)
deriving DecidableEq, Repr

/-- `DirPathError` from `err.rs`. -/
inductive DirPathError where
  | NotFound
deriving DecidableEq, Repr

/-- `CSVParseError` from `errors.rs` / `mods/errors.rs`. -/
inductive CSVParseError where
  | ColumnMissing (name : String)
deriving DecidableEq, Repr

/-- The error sum type.  It merges the payload-carrying variants of
`XCReportError` (err.rs) and `XCTestError` (errors.rs / mods/errors.rs);
the I/O, UTF-8, polars and serde payloads are opaque to this development
and are modelled as plain variants. -/
inductive XCTestError where
  | FileIOError
  | FilePath (e : FilePathError)
  | DirPath (e : DirPathError)
  | CommandExecution
  | Polars
  | Serde
  | CSVParse (e : CSVParseError)
deriving DecidableEq, Repr

/-! ## Data model (model.rs) -/

/-- `TargetFile` from `model.rs`: one per-file coverage record.
`covered_lines` / `executable_lines` are `usize` in the source (`Nat` here);
`line_coverage` is `f32` (`ℚ` here); `squad_name` is `Option<String>`,
unset until the matcher fills it. -/
structure TargetFile where
  path : String
  covered_lines : Nat
  executable_lines : Nat
  line_coverage : ℚ
  squad_name : Option String
deriving DecidableEq, Repr

/-- `Target` from `model.rs`: aggregate counts plus the per-file list. -/
structure Target where
  covered_lines : Nat
  executable_lines : Nat
  line_coverage : ℚ
  files : List TargetFile
deriving DecidableEq, Repr

/-- `XCodeBuildReport` from `model.rs`: the decoded coverage export. -/
structure XCodeBuildReport where
  targets : List Target
deriving DecidableEq, Repr

/-- `XCodeBuildReport::get_all_files` from `model.rs`: flatten the targets
into one sequence of per-file records (`flat_map` over `targets`). -/
def XCodeBuildReport.get_all_files (r : XCodeBuildReport) : List TargetFile :=
  r.targets.flatMap (fun t => t.files)

/-- `SquadData` from `model.rs`: one ownership entry, deserialized from the
CSV columns `Squad` and `Filepath`. -/
structure SquadData where
  squad_name : String
  file_path : String
deriving DecidableEq, Repr

/-! ## Ownership-CSV header validation (main.rs, `load_squads_file`) -/

/-- The `expected_field_names` array of `load_squads_file` in `main.rs`:
`["ID", "Squad", "Filename"]`, iterated in this exact order. -/
def expected_field_names : List String := ["ID", "Squad", "Filename"]

/-- The header-checking loop of `load_squads_file` (main.rs): for each
expected field, in order, return `ColumnMissing` as soon as one is not
contained in the header; otherwise succeed. -/
def checkFields : List String → List String → Except XCTestError Unit
  | [], _ => .ok ()
  | f :: rest, fields =>
    if fields.contains f then checkFields rest fields
    else .error (.CSVParse (.ColumnMissing f))

/-- `load_squads_file` from `main.rs`, restricted to its header validation:
the CSV is decoded (parse failures are out of scope here), then the headers
are checked against `expected_field_names`; on success the dataframe
(modelled by its header list) is returned. -/
def load_squads_file (fields : List String) : Except XCTestError (List String) :=
  match checkFields expected_field_names fields with
  | .error e => .error e
  | .ok _ => .ok fields

/-! ## CLI argument validation (cli.rs) -/

/-- `parse_file` from `cli.rs`.  The `Path::try_exists` probe is modelled by
`probe : Option Bool` (`none` = the probe returned an I/O error, which the
source collapses to `false` via `unwrap_or_default`).  `Path::extension()`
is modelled by `ext : Option String`.  The source first rejects
non-existing paths with `NotFound`, then compares the extension, producing
`InvalidType` carrying the actual extension (or `"N/A"` when absent). -/
def parse_file (probe : Option Bool) (ext : Option String)
    (arg : String) (expected : String) : Except XCTestError String :=
  let path_exists := probe.getD false
  if !path_exists then
    .error (.FilePath .NotFound)
  else if ext ≠ some expected then
    .error (.FilePath (.InvalidType (ext.getD "N/A")))
  else
    .ok arg

/-- `parse_xcresult_file` from `cli.rs`: `parse_file` with extension
`"xcresult"`. -/
def parse_xcresult_file (probe : Option Bool) (ext : Option String)
    (arg : String) : Except XCTestError String :=
  parse_file probe ext arg "xcresult"

/-- `parse_input_file` from `cli.rs`: `parse_file` with extension `"csv"`. -/
def parse_input_file (probe : Option Bool) (ext : Option String)
    (arg : String) : Except XCTestError String :=
  parse_file probe ext arg "csv"

/-- `parse_output_file` from `cli.rs`: the pre-flight existence check on a
caller-supplied output path.  If the path exists the parse fails with
`AlreadyExists`; otherwise the path is accepted unchanged. -/
def parse_output_file (probe : Option Bool) (arg : String) :
    Except XCTestError String :=
  let path_exists := probe.getD false
  if path_exists then .error (.FilePath .AlreadyExists)
  else .ok arg

/-! ## Substring containment (Rust `str::contains` on string fragments) -/

/-- Containment of `needle` in the tail-closure of a character list:
`needle` is a prefix of some suffix. -/
def containsSubAux (needle : List Char) : List Char → Bool
  | [] => needle.isEmpty
  | c :: rest => needle.isPrefixOf (c :: rest) || containsSubAux needle rest

/-- Rust's `String::contains(&str)`: plain substring containment of
`needle` in `hay` (not prefix/suffix, not path-segment aware). -/
def containsSub (hay needle : String) : Bool :=
  containsSubAux needle.toList hay.toList

/-! ## AttributionMatcher

The matcher itself is not present in the sources of this repository (only
its data model in `model.rs`: `TargetFile.set_squad_name`, `SquadData`);
the following definitions are modelled from the spec, §4.3. -/

/-- Modelled from the spec: the per-record scan of the AttributionMatcher
(the matcher implementation is missing from the sources; `model.rs` only
carries its data model).  Scan the ownership entries in their original
order and return the team of the first entry whose `path_fragment`
(`SquadData.file_path`) is a substring of the record's path; `none` on
exhaustion. -/
def scanEntries (path : String) : List SquadData → Option String
  | [] => none
  | e :: rest =>
    if containsSub path e.file_path then some e.squad_name
    else scanEntries path rest

/-- Modelled from the spec: the record loop of the AttributionMatcher with
its short-circuit (the matcher implementation is missing from the
sources).  `c` counts the records attributed so far; matching stops
entirely once `c` equals the number of ownership entries, leaving every
remaining record untouched (owner unset). -/
def attributeGo (entries : List SquadData) : Nat → List TargetFile → List TargetFile
  | _, [] => []
  | c, r :: rs =>
    if c == entries.length then r :: rs
    else
      match scanEntries r.path entries with
      | some team => { r with squad_name := some team } :: attributeGo entries (c + 1) rs
      | none => r :: attributeGo entries c rs

/-- Modelled from the spec: the AttributionMatcher entry point — attribute
a sequence of records against the ownership entries, starting with zero
attributed records. -/
def attributeRecords (entries : List SquadData) (records : List TargetFile) :
    List TargetFile :=
  attributeGo entries 0 records

/-! ## Rounding and the coverage percentage (df.rs, `process_report`) -/

/-- `f64::round` (used by polars' `.round(2)`): round half away from zero. -/
def roundHalfAway (q : ℚ) : ℤ :=
  if 0 ≤ q then ⌊q + 1 / 2⌋ else ⌈q - 1 / 2⌉

/-- polars' `.round(2)` on a column value: scale by `10^2`, round, scale
back. -/
def round2 (q : ℚ) : ℚ :=
  (roundHalfAway (q * 100) : ℚ) / 100

/-- The `Coverage %` expression of `process_report` (df.rs): cast the
covered sum to float, divide by the executable sum, multiply by 100, round
to 2 decimals.  The `f64` division by zero produces NaN (covered ≤
executable forces `0.0 / 0.0` there), a sentinel carried through rather
than an error; it is modelled as `none`. -/
def coveragePct (c e : Nat) : Option ℚ :=
  if e = 0 then none else some (round2 (100 * (c : ℚ) / (e : ℚ)))

/-! ## Full-report step (df.rs, `process_full_report`) -/

/-- A row of the full report after the `rename` projection and the
`fill_null` step: the `Squad` column is a plain string. -/
structure ReportRow where
  filepath : String
  covered : Nat
  executable : Nat
  lineCoverage : ℚ
  squad : String
deriving DecidableEq, Repr

/-- The ordering used by `sort_by_exprs(vec![col("squad_name")],
vec![false], true, true)` in `process_full_report`: ascending on the
optional squad name with `nulls_last = true` — `none` sorts after every
`some`. -/
def nullsLastLe : Option String → Option String → Prop
  | none, none => True
  | none, some _ => False
  | some _, none => True
  | some a, some b => a ≤ b

instance nullsLastLe.instDecidable : DecidableRel nullsLastLe := fun a b =>
  match a, b with
  | none, none => .isTrue trivial
  | none, some _ => .isFalse (fun h => h)
  | some _, none => .isTrue trivial
  | some a, some b => inferInstanceAs (Decidable (a ≤ b))

/-- The row ordering of the full-report sort: compare the optional
`squad_name` columns, nulls last. -/
def recordLe (a b : TargetFile) : Prop :=
  nullsLastLe a.squad_name b.squad_name

instance recordLe.instDecidable : DecidableRel recordLe := fun a b =>
  nullsLastLe.instDecidable a.squad_name b.squad_name

instance recordLe.instIsTotal : IsTotal TargetFile recordLe where
  total a b := by
    unfold recordLe
    rcases ha : a.squad_name with _ | sa <;> rcases hb : b.squad_name with _ | sb
    · exact Or.inl trivial
    · exact Or.inr trivial
    · exact Or.inl trivial
    · exact (le_total sa sb).imp id id

instance recordLe.instIsTrans : IsTrans TargetFile recordLe where
  trans a b c hab hbc := by
    unfold recordLe at *
    rcases ha : a.squad_name with _ | sa <;> rcases hb : b.squad_name with _ | sb <;>
      rcases hc : c.squad_name with _ | sc <;>
      simp_all [nullsLastLe]
    exact le_trans hab hbc

/-- The `rename` projection of `process_full_report` (presentation columns)
combined with the trailing `fill_null` step: an unset `Squad` is
materialized as the literal `"N/A"`. -/
def projectFill (r : TargetFile) : ReportRow :=
  { filepath := r.path
    covered := r.covered_lines
    executable := r.executable_lines
    lineCoverage := r.line_coverage
    squad := r.squad_name.getD "N/A" }

/-- `process_full_report` from `df.rs`, in the source's order of steps:
first a stable ascending sort on the optional `squad_name` column with
nulls last (`sort_by_exprs(…, vec![false], true, true)`), then the
`rename` projection, then `fill_null` with `"N/A"`.  polars' stable sort
is modelled by `List.insertionSort`. -/
def process_full_report (records : List TargetFile) : List ReportRow :=
  (List.insertionSort recordLe records).map projectFill

/-- The row ordering on presentation rows: ascending by the (filled)
`Squad` string. -/
def rowSquadLe (a b : ReportRow) : Prop :=
  a.squad ≤ b.squad

instance rowSquadLe.instDecidable : DecidableRel rowSquadLe := fun a b =>
  inferInstanceAs (Decidable (a.squad ≤ b.squad))

/-- The full-report step as the spec words it (for comparison with
`process_full_report`): fill unset owners with `"N/A"` first, and only
then sort ascending by the filled owner string. -/
def process_full_report_claim (records : List TargetFile) : List ReportRow :=
  List.insertionSort rowSquadLe (records.map projectFill)

/-! ## Summary step (df.rs, `process_report`) -/

/-- A row of the summary report: `Squad`, `Count`, `Covered Lines`,
`Executable Lines`, `Coverage %` (the latter `none` when the group's
executable sum is zero, see `coveragePct`). -/
structure SummaryRow where
  squad : String
  count : Nat
  covered : Nat
  executable : Nat
  coverage : Option ℚ
deriving DecidableEq, Repr

/-- The rows of one `group_by(["Squad"])` group: the full-report rows whose
`Squad` equals the key. -/
def groupRows (rows : List ReportRow) (s : String) : List ReportRow :=
  rows.filter (fun r => r.squad == s)

/-- The distinct `Squad` keys of the `group_by`. -/
def squadKeys (rows : List ReportRow) : List String :=
  (rows.map (fun r => r.squad)).dedup

/-- The `agg` step of `process_report` for one group: `count()`, the two
column sums, and the `Coverage %` expression. -/
def mkSummaryRow (rows : List ReportRow) (s : String) : SummaryRow :=
  let g := groupRows rows s
  let cov := (g.map (fun r => r.covered)).sum
  let exe := (g.map (fun r => r.executable)).sum
  { squad := s
    count := g.length
    covered := cov
    executable := exe
    coverage := coveragePct cov exe }

/-- Ascending order on summary rows by `Squad`. -/
def summaryLe (a b : SummaryRow) : Prop :=
  a.squad ≤ b.squad

instance summaryLe.instDecidable : DecidableRel summaryLe := fun a b =>
  inferInstanceAs (Decidable (a.squad ≤ b.squad))

/-- `process_report` from `df.rs`: group the full report by `Squad`,
aggregate count and sums, attach the `Coverage %` column, and sort
ascending by `Squad`.  The input is the already-filled full report, so its
`Squad` column carries no nulls and the source's trailing `fill_null` is a
no-op (omitted here). -/
def process_report (rows : List ReportRow) : List SummaryRow :=
  List.insertionSort summaryLe ((squadKeys rows).map (mkSummaryRow rows))

/-! ## Output paths (fs.rs) and report writing (df.rs) -/

/-- `home_path` from `fs.rs`: the user's home directory joined with
`".xcreport"`.  The home directory is passed explicitly. -/
def home_path (homeDir : String) : String :=
  homeDir ++ "/.xcreport"

/-- `full_report_path` from `fs.rs`: `<home>/.xcreport/<identifier>/full_report.csv`. -/
def full_report_path (homeDir identifier : String) : String :=
  home_path homeDir ++ "/" ++ identifier ++ "/full_report.csv"

/-- `report_path` from `fs.rs`: `<home>/.xcreport/<identifier>/report.csv`. -/
def report_path (homeDir identifier : String) : String :=
  home_path homeDir ++ "/" ++ identifier ++ "/report.csv"

/-- The filesystem, modelled as a partial map from paths to file
contents. -/
def FsState := String → Option String

/-- `save_dataframe_csv` from `df.rs`: `std::fs::File::create` (a
truncating create — it yields `FileIOError` only on an I/O fault, modelled
by `createFails`, and never inspects whether the path exists), then the
CSV serialization of the dataframe (its rendered text is passed as
`content`). -/
def save_dataframe_csv (createFails : Bool) (fs : FsState)
    (path content : String) : Except XCTestError FsState :=
  if createFails then .error .FileIOError
  else .ok (fun p => if p = path then some content else fs p)

/-- `save_full_report` from `df.rs`: write to the run-scoped
`full_report_path` and return that path. -/
def save_full_report (createFails : Bool) (fs : FsState)
    (homeDir identifier content : String) : Except XCTestError (FsState × String) :=
  match save_dataframe_csv createFails fs (full_report_path homeDir identifier) content with
  | .error e => .error e
  | .ok fs2 => .ok (fs2, full_report_path homeDir identifier)

/-- `save_report_to_default` from `df.rs`: write to the run-scoped
`report_path` and return that path. -/
def save_report_to_default (createFails : Bool) (fs : FsState)
    (homeDir identifier content : String) : Except XCTestError (FsState × String) :=
  match save_dataframe_csv createFails fs (report_path homeDir identifier) content with
  | .error e => .error e
  | .ok fs2 => .ok (fs2, report_path homeDir identifier)

/-- `save_report_to_output` from `df.rs`: write to the caller-supplied
path, with no check of its own. -/
def save_report_to_output (createFails : Bool) (fs : FsState)
    (outputPath content : String) : Except XCTestError FsState :=
  save_dataframe_csv createFails fs outputPath content

/-- Modelled from the spec: the driver step that saves the summary (the
newer iteration's driver is missing from the sources; `cli.rs` declares
the optional `output_file` argument with `value_parser = parse_output_file`
and `df.rs` provides the two save functions).  An explicit output argument
goes through `parse_output_file`'s pre-flight existence check — probed
against the modelled filesystem — before any write; without one, the
default run-scoped `report_path` is used.  The filesystem is returned
unchanged alongside the error when the check fails: nothing is written. -/
def run_summary_save (fs : FsState) (homeDir identifier : String)
    (outputArg : Option String) (content : String) :
    FsState × Except XCTestError String :=
  match outputArg with
  | some arg =>
    match parse_output_file (some (fs arg).isSome) arg with
    | .error e => (fs, .error e)
    | .ok p =>
      match save_report_to_output false fs p content with
      | .error e => (fs, .error e)
      | .ok fs2 => (fs2, .ok p)
  | none =>
    match save_report_to_default false fs homeDir identifier content with
    | .error e => (fs, .error e)
    | .ok (fs2, p) => (fs2, .ok p)

/-! ## Helper lemmas -/

/-- The header-checking loop of `load_squads_file` reports exactly the
first expected field that the header does not contain. -/
theorem checkFields_eq_find (es fields : List String) :
    checkFields es fields =
      match es.find? (fun f => !(fields.contains f)) with
      | some f => .error (.CSVParse (.ColumnMissing f))
      | none => .ok () := by
  induction es with
  | nil => rfl
  | cons f rest ih =>
    rw [List.find?_cons]
    cases h : fields.contains f with
    | true =>
      simp only [checkFields, h, if_true, Bool.not_true]
      exact ih
    | false =>
      simp only [checkFields, h, Bool.false_eq_true, if_false, Bool.not_false]

/-- Splitting a sum of mapped values along a Boolean filter. -/
theorem sum_map_filter_split {α : Type} (p : α → Bool) (f : α → Nat) (l : List α) :
    ((l.filter p).map f).sum + ((l.filter (fun a => !(p a))).map f).sum
      = (l.map f).sum := by
  induction l with
  | nil => rfl
  | cons a l ih =>
    cases h : p a with
    | true => simp [List.filter_cons, h, List.sum_cons, ← ih]; omega
    | false => simp [List.filter_cons, h, List.sum_cons, ← ih]; omega

/-- Rows whose squad differs from `k` are untouched by filtering out the
`k` group. -/
theorem groupRows_filter_ne (rows : List ReportRow) (k s : String) (h : s ≠ k) :
    groupRows (rows.filter (fun r => !(r.squad == k))) s = groupRows rows s := by
  unfold groupRows
  rw [List.filter_filter]
  apply List.filter_congr
  intro r _
  cases hk : r.squad == k with
  | true =>
    have : r.squad = k := by simpa using hk
    simp [this, h, Ne.symm h]
  | false => simp [hk]

/-- Summing a per-group aggregate over a duplicate-free list of keys that
covers every row's squad recovers the global sum over the rows. -/
theorem sum_groups_of_cover (f : ReportRow → Nat) :
    ∀ (keys : List String), keys.Nodup → ∀ (rows : List ReportRow),
      (∀ r ∈ rows, r.squad ∈ keys) →
      (keys.map (fun s => ((groupRows rows s).map f).sum)).sum = (rows.map f).sum := by
  intro keys
  induction keys with
  | nil =>
    intro _ rows hcover
    cases rows with
    | nil => rfl
    | cons r rs => exact absurd (hcover r (List.mem_cons_self r rs)) (List.not_mem_nil _)
  | cons k ks ih =>
    intro hnodup rows hcover
    have hk_not : k ∉ ks := (List.nodup_cons.mp hnodup).1
    have htail : ks.Nodup := (List.nodup_cons.mp hnodup).2
    set rows' := rows.filter (fun r => !(r.squad == k)) with hrows'
    have hmap_eq : ks.map (fun s => ((groupRows rows s).map f).sum)
        = ks.map (fun s => ((groupRows rows' s).map f).sum) := by
      apply List.map_congr_left
      intro s hs
      have hsk : s ≠ k := fun hsk => hk_not (hsk ▸ hs)
      rw [hrows', groupRows_filter_ne rows k s hsk]
    have hcover' : ∀ r ∈ rows', r.squad ∈ ks := by
      intro r hr
      rw [hrows', List.mem_filter] at hr
      rcases hr with ⟨hmem, hne⟩
      have := hcover r hmem
      rcases List.mem_cons.mp this with h | h
      · exfalso
        have : (r.squad == k) = true := by simpa using h
        rw [this] at hne
        exact Bool.noConfusion hne
      · exact h
    calc (List.map (fun s => ((groupRows rows s).map f).sum) (k :: ks)).sum
        = ((groupRows rows k).map f).sum
            + (ks.map (fun s => ((groupRows rows s).map f).sum)).sum := by
          simp [List.sum_cons]
      _ = ((groupRows rows k).map f).sum
            + (ks.map (fun s => ((groupRows rows' s).map f).sum)).sum := by
          rw [hmap_eq]
      _ = ((groupRows rows k).map f).sum + (rows'.map f).sum := by
          rw [ih htail rows' hcover']
      _ = (rows.map f).sum := by
          rw [hrows']
          exact sum_map_filter_split (fun r => r.squad == k) f rows

/-- A list's length is the sum of the constant-one map. -/
theorem sum_map_one {α : Type} (l : List α) :
    (l.map (fun _ => (1 : Nat))).sum = l.length := by
  induction l with
  | nil => rfl
  | cons a l ih => simp [List.sum_cons, ih]; omega

/-- The squad keys of the `group_by` cover every row. -/
theorem mem_squadKeys (rows : List ReportRow) (r : ReportRow) (hr : r ∈ rows) :
    r.squad ∈ squadKeys rows := by
  rw [squadKeys, List.mem_dedup]
  exact List.mem_map.mpr ⟨r, hr, rfl⟩

/-- Sums of a field over `process_report` reduce to sums of per-group
aggregates over the squad keys. -/
theorem process_report_map_sum (rows : List ReportRow) (g : SummaryRow → Nat) :
    ((process_report rows).map g).sum
      = ((squadKeys rows).map (fun s => g (mkSummaryRow rows s))).sum := by
  unfold process_report
  have hperm := (List.perm_insertionSort summaryLe
    ((squadKeys rows).map (mkSummaryRow rows))).map g
  rw [hperm.sum_eq, List.map_map]
  rfl

end XCReport

namespace XCReport

/-! ## Claims -/

/-- C8: for every well-formed coverage export, `get_all_files` is the
concatenation of the per-target file lists — targets in their original
order, files within a target in their original order — so its length is
the sum of the targets' file-list lengths. -/
theorem get_all_files_concat (r : XCodeBuildReport) :
    r.get_all_files = (r.targets.map Target.files).flatten ∧
    r.get_all_files.length = (r.targets.map (fun t => t.files.length)).sum := by
  constructor
  · exact List.flatMap_def _ _
  · rw [XCodeBuildReport.get_all_files, List.flatMap_def, List.length_flatten,
      List.map_map]
    rfl

/-- C10: `parse_file` probes existence first — returning
`FilePath NotFound` when the path does not exist or the probe itself
returns an I/O error (`probe = none`) — and only for an existing path
compares the extension, returning `FilePath (InvalidType ext)` with the
actual extension (`"N/A"` when there is none) on mismatch, and the path
itself on match; `parse_xcresult_file` is `parse_file` at `"xcresult"`. -/
theorem parse_file_exists_before_extension :
    (∀ ext arg expected, parse_file none ext arg expected =
      .error (.FilePath .NotFound)) ∧
    (∀ ext arg expected, parse_file (some false) ext arg expected =
      .error (.FilePath .NotFound)) ∧
    (∀ ext arg expected, ext ≠ some expected →
      parse_file (some true) ext arg expected =
        .error (.FilePath (.InvalidType (ext.getD "N/A")))) ∧
    (∀ arg expected, parse_file (some true) (some expected) arg expected = .ok arg) ∧
    (∀ probe ext arg, parse_xcresult_file probe ext arg =
      parse_file probe ext arg "xcresult") := by
  refine ⟨fun ext arg expected => rfl, fun ext arg expected => rfl, ?_, ?_, fun _ _ _ => rfl⟩
  · intro ext arg expected h
    simp [parse_file, h]
  · intro arg expected
    simp [parse_file]

/-- Witness for C10: an existing path with extension `"txt"` checked
against `"csv"` is rejected as `InvalidType "txt"`. -/
theorem parse_file_exists_before_extension_witness :
    (some "txt" : Option String) ≠ some "csv" ∧
    parse_file (some true) (some "txt") "notes.txt" "csv" =
      .error (.FilePath (.InvalidType ((some "txt" : Option String).getD "N/A"))) :=
  ⟨by decide, parse_file_exists_before_extension.2.2.1 (some "txt") "notes.txt" "csv" (by decide)⟩

/-- C2 (counterexample): a header containing exactly `Squad` and
`Filepath` — which the claim calls complete — is rejected by
`load_squads_file`, with the missing-column error naming `ID`: the
required columns of the code are `ID`, `Squad`, `Filename`, checked `ID`
first. -/
theorem load_squads_spec_header_rejected :
    load_squads_file ["Squad", "Filepath"] =
      .error (.CSVParse (.ColumnMissing "ID")) := rfl

/-- C2 (amended): `load_squads_file` requires exactly the columns `ID`,
`Squad`, `Filename`, checked in that fixed order; it fails with a
missing-column error naming the first required column not contained in
the header, never reports more than one, and ignores extra columns
without error. -/
theorem load_squads_required_columns :
    (∀ fields, load_squads_file fields =
      match expected_field_names.find? (fun f => !(fields.contains f)) with
      | some f => .error (.CSVParse (.ColumnMissing f))
      | none => .ok fields) ∧
    expected_field_names = ["ID", "Squad", "Filename"] ∧
    load_squads_file ["ID", "Squad", "Filename", "Extra"] =
      .ok ["ID", "Squad", "Filename", "Extra"] := by
  refine ⟨?_, rfl, rfl⟩
  intro fields
  rw [load_squads_file, checkFields_eq_find]
  cases expected_field_names.find? (fun f => !(fields.contains f)) <;> rfl

/-- C3: the matcher's short-circuit — once the count of attributed
records equals the number of ownership entries, every remaining record is
returned untouched (owner unset), even when an entry's fragment is a
substring of its path: with the single entry `("TeamA", "/Foo/")` and two
matching files, the second stays unattributed although `"/Foo/"` is
contained in its path. -/
theorem matcher_short_circuit :
    (∀ entries rs, attributeGo entries entries.length rs = rs) ∧
    attributeRecords [⟨"TeamA", "/Foo/"⟩]
        [⟨"/Foo/A.swift", 0, 0, 0, none⟩, ⟨"/Foo/B.swift", 0, 0, 0, none⟩] =
      [⟨"/Foo/A.swift", 0, 0, 0, some "TeamA"⟩, ⟨"/Foo/B.swift", 0, 0, 0, none⟩] ∧
    containsSub "/Foo/B.swift" "/Foo/" = true := by
  refine ⟨?_, by decide, by decide⟩
  intro entries rs
  cases rs with
  | nil => rfl
  | cons r rs => simp [attributeGo]

/-- C5: attribution of a single record is first-match-wins — the scan
returns the team of the first entry (in original order) whose fragment is
a substring of the path, and leaves the owner unset on exhaustion; in
Scenario B the file `/Foo/Sub/X.swift` goes to `Narrow` when `Narrow` is
listed first and to `Broad` when the entries are swapped. -/
theorem matcher_first_match_wins :
    (∀ path entries, scanEntries path entries =
      (entries.find? (fun e => containsSub path e.file_path)).map SquadData.squad_name) ∧
    (∀ entries r, attributeRecords entries [r] =
      [match scanEntries r.path entries with
       | some team => { r with squad_name := some team }
       | none => r]) ∧
    attributeRecords [⟨"Narrow", "/Foo/Sub/"⟩, ⟨"Broad", "/Foo/"⟩]
        [⟨"/Foo/Sub/X.swift", 0, 0, 0, none⟩] =
      [⟨"/Foo/Sub/X.swift", 0, 0, 0, some "Narrow"⟩] ∧
    attributeRecords [⟨"Broad", "/Foo/"⟩, ⟨"Narrow", "/Foo/Sub/"⟩]
        [⟨"/Foo/Sub/X.swift", 0, 0, 0, none⟩] =
      [⟨"/Foo/Sub/X.swift", 0, 0, 0, some "Broad"⟩] := by
  refine ⟨?_, ?_, by decide, by decide⟩
  · intro path entries
    induction entries with
    | nil => rfl
    | cons e rest ih =>
      by_cases h : containsSub path e.file_path = true
      · simp [scanEntries, h, List.find?_cons]
      · simp [scanEntries, h, List.find?_cons, ih]
  · intro entries r
    cases entries with
    | nil => rfl
    | cons e rest =>
      show attributeGo (e :: rest) 0 [r] = _
      rw [attributeGo]
      simp only [List.length_cons, Nat.zero_eq]
      cases h : scanEntries r.path (e :: rest) <;> simp [h, attributeGo]

/-- C7: an explicit summary output path goes through a pre-flight
existence check — if a file already exists there, the run fails with
`FilePath AlreadyExists` and the filesystem is unchanged (nothing is
written); when no explicit path is supplied, the default run-scoped
`report_path` is used. -/
theorem summary_save_preflight_check :
    (∀ fs homeDir identifier arg content, (fs arg).isSome = true →
      run_summary_save fs homeDir identifier (some arg) content =
        (fs, .error (.FilePath .AlreadyExists))) ∧
    (∀ fs homeDir identifier arg content old, fs arg = some old →
      (run_summary_save fs homeDir identifier (some arg) content).1 arg = some old) ∧
    (∀ fs homeDir identifier content,
      run_summary_save fs homeDir identifier none content =
        (fun p => if p = report_path homeDir identifier then some content else fs p,
         .ok (report_path homeDir identifier))) := by
  refine ⟨?_, ?_, fun fs homeDir identifier content => rfl⟩
  · intro fs homeDir identifier arg content h
    simp [run_summary_save, parse_output_file, h]
  · intro fs homeDir identifier arg content old h
    have hs : (fs arg).isSome = true := by rw [h]; rfl
    simp [run_summary_save, parse_output_file, hs, h]

/-- Witness for C7: with a file already present at `"out.csv"`, the run
fails with `AlreadyExists` and the file's old content is untouched. -/
theorem summary_save_preflight_check_witness :
    (((fun p => if p = "out.csv" then some "old" else none) "out.csv").isSome = true) ∧
    run_summary_save (fun p => if p = "out.csv" then some "old" else none)
        "/home/u" "2024-01-01" (some "out.csv") "new" =
      ((fun p => if p = "out.csv" then some "old" else none),
       .error (.FilePath .AlreadyExists)) ∧
    run_summary_save (fun _ => none) "/home/u" "2024-01-01" none "new" =
      (fun p => if p = report_path "/home/u" "2024-01-01" then some "new" else none,
       .ok (report_path "/home/u" "2024-01-01")) :=
  ⟨by decide,
   summary_save_preflight_check.1 _ "/home/u" "2024-01-01" "out.csv" "new" (by decide),
   summary_save_preflight_check.2.2 (fun _ => none) "/home/u" "2024-01-01" "new"⟩

/-- C9: the save functions perform no existence check of their own —
`save_dataframe_csv` is a truncating create, so a file already present at
the target path is overwritten (its content replaced) and the only error
the write can produce is an I/O fault, never `AlreadyExists`; the three
wrappers inherit this. -/
theorem save_no_existence_check :
    (∀ fs path content old, fs path = some old →
      save_dataframe_csv false fs path content =
        .ok (fun p => if p = path then some content else fs p)) ∧
    (∀ fs path content e, save_dataframe_csv false fs path content ≠ .error e) ∧
    (∀ fs path content, save_report_to_output false fs path content =
      save_dataframe_csv false fs path content) ∧
    (∀ fs homeDir identifier content old,
      fs (report_path homeDir identifier) = some old →
      save_report_to_default false fs homeDir identifier content =
        .ok (fun p => if p = report_path homeDir identifier then some content else fs p,
             report_path homeDir identifier)) ∧
    (∀ fs homeDir identifier content old,
      fs (full_report_path homeDir identifier) = some old →
      save_full_report false fs homeDir identifier content =
        .ok (fun p => if p = full_report_path homeDir identifier then some content else fs p,
             full_report_path homeDir identifier)) := by
  refine ⟨fun fs path content old _ => rfl, ?_,
    fun fs path content => rfl,
    fun fs homeDir identifier content old _ => rfl,
    fun fs homeDir identifier content old _ => rfl⟩
  intro fs path content e h
  exact Except.noConfusion h

/-- C6: conservation under aggregation — the summary's `Covered Lines`
sum equals the full report's `Covered Lines` sum, likewise for
`Executable Lines`, and the summary's `Count` values sum to the full
report's row count. -/
theorem summary_conservation (rows : List ReportRow) :
    ((process_report rows).map (fun s => s.covered)).sum
      = (rows.map (fun r => r.covered)).sum ∧
    ((process_report rows).map (fun s => s.executable)).sum
      = (rows.map (fun r => r.executable)).sum ∧
    ((process_report rows).map (fun s => s.count)).sum = rows.length := by
  have hnodup := List.nodup_dedup (rows.map (fun r => r.squad))
  have hcover : ∀ r ∈ rows, r.squad ∈ squadKeys rows :=
    fun r hr => mem_squadKeys rows r hr
  refine ⟨?_, ?_, ?_⟩
  · rw [process_report_map_sum rows (fun s => s.covered)]
    exact sum_groups_of_cover (fun r => r.covered) (squadKeys rows) hnodup rows hcover
  · rw [process_report_map_sum rows (fun s => s.executable)]
    exact sum_groups_of_cover (fun r => r.executable) (squadKeys rows) hnodup rows hcover
  · rw [process_report_map_sum rows (fun s => s.count)]
    have hlen : (squadKeys rows).map (fun s => (mkSummaryRow rows s).count)
        = (squadKeys rows).map (fun s => ((groupRows rows s).map (fun _ => (1 : Nat))).sum) := by
      apply List.map_congr_left
      intro s _
      show (groupRows rows s).length = ((groupRows rows s).map (fun _ => (1 : Nat))).sum
      rw [sum_map_one]
    rw [hlen,
      sum_groups_of_cover (fun _ => (1 : Nat)) (squadKeys rows) hnodup rows hcover,
      sum_map_one]

/-- C4: every summary row's `Coverage %` is
`round(100 × covered_sum / executable_sum, 2)` — rounding half away from
zero (which on the nonnegative coverage values is half-up,
`⌊q + 1/2⌋`) — and a group with executable sum `0` gets the defined
not-a-number sentinel (`none`, modelling the `f64` NaN) instead of an
error. -/
theorem summary_coverage_formula :
    (∀ rows srow, srow ∈ process_report rows →
      srow.coverage = coveragePct srow.covered srow.executable) ∧
    (∀ c, coveragePct c 0 = none) ∧
    (∀ c e, e ≠ 0 → coveragePct c e =
      some ((roundHalfAway (100 * (c : ℚ) / (e : ℚ) * 100) : ℚ) / 100)) ∧
    (∀ q : ℚ, 0 ≤ q → roundHalfAway q = ⌊q + 1 / 2⌋) := by
  refine ⟨?_, fun c => rfl, ?_, ?_⟩
  · intro rows srow hmem
    unfold process_report at hmem
    rw [List.mem_insertionSort] at hmem
    obtain ⟨s, _, rfl⟩ := List.mem_map.mp hmem
    rfl
  · intro c e h
    simp [coveragePct, round2, h]
  · intro q h
    simp [roundHalfAway, h]

/-- Witness for C4: the one-row report `("/a.swift", 0/0, squad "T")`
produces the summary row `("T", 1, 0, 0, none)` — the zero-executable
group carries the sentinel — and `8/10` at executable `10 ≠ 0` goes
through the rounding formula, with `roundHalfAway` agreeing with
`⌊q + 1/2⌋` at `q = 2 ≥ 0`. -/
theorem summary_coverage_formula_witness :
    (⟨"T", 1, 0, 0, none⟩ : SummaryRow) ∈
        process_report [⟨"/a.swift", 0, 0, 0, "T"⟩] ∧
    (⟨"T", 1, 0, 0, none⟩ : SummaryRow).coverage =
      coveragePct (⟨"T", 1, 0, 0, none⟩ : SummaryRow).covered
        (⟨"T", 1, 0, 0, none⟩ : SummaryRow).executable ∧
    coveragePct 5 0 = none ∧
    (10 : Nat) ≠ 0 ∧
    coveragePct 8 10 =
      some ((roundHalfAway (100 * (8 : ℚ) / (10 : ℚ) * 100) : ℚ) / 100) ∧
    (0 : ℚ) ≤ 2 ∧ roundHalfAway 2 = ⌊(2 : ℚ) + 1 / 2⌋ := by
  have hmem : (⟨"T", 1, 0, 0, none⟩ : SummaryRow) ∈
      process_report [⟨"/a.swift", 0, 0, 0, "T"⟩] := by decide
  refine ⟨hmem, summary_coverage_formula.1 _ _ hmem,
    summary_coverage_formula.2.1 5,
    by decide,
    summary_coverage_formula.2.2.1 8 10 (by decide),
    by norm_num,
    summary_coverage_formula.2.2.2 2 (by norm_num)⟩

/-- C1 (counterexample): `process_full_report` sorts *before* filling.
On the input `[(b.swift, owner unset), (a.swift, owner "Zeta")]` the code
places the unset row last (`nulls_last`), yielding `[Zeta, N/A]`, while
the claimed fill-then-sort order would put `"N/A"` at its alphabetical
position before `"Zeta"`, yielding `[N/A, Zeta]`. -/
theorem full_report_sort_before_fill_counterexample :
    process_full_report
        [⟨"b.swift", 1, 2, 0, none⟩, ⟨"a.swift", 3, 4, 0, some "Zeta"⟩] =
      [⟨"a.swift", 3, 4, 0, "Zeta"⟩, ⟨"b.swift", 1, 2, 0, "N/A"⟩] ∧
    process_full_report_claim
        [⟨"b.swift", 1, 2, 0, none⟩, ⟨"a.swift", 3, 4, 0, some "Zeta"⟩] =
      [⟨"b.swift", 1, 2, 0, "N/A"⟩, ⟨"a.swift", 3, 4, 0, "Zeta"⟩] ∧
    process_full_report
        [⟨"b.swift", 1, 2, 0, none⟩, ⟨"a.swift", 3, 4, 0, some "Zeta"⟩] ≠
      process_full_report_claim
        [⟨"b.swift", 1, 2, 0, none⟩, ⟨"a.swift", 3, 4, 0, some "Zeta"⟩] ∧
    ("N/A" : String) < "Zeta" := by
  have hle : ("N/A" : String) ≤ "Zeta" := by
    rw [String.le_iff_toList_le]; decide
  have h1 : process_full_report
      [⟨"b.swift", 1, 2, 0, none⟩, ⟨"a.swift", 3, 4, 0, some "Zeta"⟩] =
      [⟨"a.swift", 3, 4, 0, "Zeta"⟩, ⟨"b.swift", 1, 2, 0, "N/A"⟩] := by decide
  have h2 : process_full_report_claim
      [⟨"b.swift", 1, 2, 0, none⟩, ⟨"a.swift", 3, 4, 0, some "Zeta"⟩] =
      [⟨"b.swift", 1, 2, 0, "N/A"⟩, ⟨"a.swift", 3, 4, 0, "Zeta"⟩] := by
    simp [process_full_report_claim, List.insertionSort, List.orderedInsert,
      rowSquadLe, projectFill, hle]
  refine ⟨h1, h2, ?_, ?_⟩
  · rw [h1, h2]
    decide
  · rw [String.lt_iff_toList_lt]; decide

/-- C1 (amended): the full-report step sorts the attributed records
ascending by owner with unset owners placed last, and only then fills the
unset owners with `"N/A"`; the output is a permutation of the projected
records, and — whenever no input record carries the literal owner
`"N/A"` — every `"N/A"` row appears after every attributed row, not at
the alphabetical position of the string `"N/A"`. -/
theorem full_report_na_rows_last (records : List TargetFile) :
    (process_full_report records).Perm (records.map projectFill) ∧
    ((∀ r ∈ records, r.squad_name ≠ some "N/A") →
      (process_full_report records).Pairwise
        (fun a b => a.squad = "N/A" → b.squad = "N/A")) := by
  constructor
  · exact (List.perm_insertionSort recordLe records).map projectFill
  · intro hna
    have hsorted : List.Sorted recordLe (List.insertionSort recordLe records) :=
      List.sorted_insertionSort recordLe records
    unfold process_full_report
    rw [List.pairwise_map]
    refine hsorted.imp_of_mem ?_
    intro a b ha _ hr hsq
    have ha' : a ∈ records := (List.mem_insertionSort recordLe).mp ha
    have hnone : a.squad_name = none := by
      rcases h : a.squad_name with _ | s
      · rfl
      · exfalso
        apply hna a ha'
        rw [h]
        have hs : s = "N/A" := by simpa [projectFill, h] using hsq
        rw [hs]
    rw [recordLe, hnone] at hr
    rcases hb : b.squad_name with _ | s
    · simp [projectFill, hb]
    · rw [hb] at hr
      exact hr.elim

/-- Witness for C1 (amended): on a concrete two-record input with no
literal `"N/A"` owner, the output is a permutation of the projected rows
and its `"N/A"` rows form a suffix. -/
theorem full_report_na_rows_last_witness :
    (∀ r ∈ [(⟨"u.swift", 1, 2, 0, none⟩ : TargetFile),
            ⟨"v.swift", 3, 4, 0, some "Alpha"⟩],
      r.squad_name ≠ some "N/A") ∧
    (process_full_report [(⟨"u.swift", 1, 2, 0, none⟩ : TargetFile),
        ⟨"v.swift", 3, 4, 0, some "Alpha"⟩]).Perm
      ([(⟨"u.swift", 1, 2, 0, none⟩ : TargetFile),
        ⟨"v.swift", 3, 4, 0, some "Alpha"⟩].map projectFill) ∧
    (process_full_report [(⟨"u.swift", 1, 2, 0, none⟩ : TargetFile),
        ⟨"v.swift", 3, 4, 0, some "Alpha"⟩]).Pairwise
      (fun a b => a.squad = "N/A" → b.squad = "N/A") :=
  ⟨by decide,
   (full_report_na_rows_last _).1,
   (full_report_na_rows_last _).2 (by decide)⟩

/-- Witness for C9: a filesystem that already holds `"old"` at
`"report.csv"` gets it replaced by a plain `ok` write. -/
theorem save_no_existence_check_witness :
    ((fun p => if p = "report.csv" then some "old" else none) "report.csv" = some "old") ∧
    save_dataframe_csv false (fun p => if p = "report.csv" then some "old" else none)
        "report.csv" "new" =
      .ok (fun p => if p = "report.csv"
           then some "new"
           else (fun q => if q = "report.csv" then some "old" else none) p) :=
  ⟨by decide,
   save_no_existence_check.1 (fun p => if p = "report.csv" then some "old" else none)
     "report.csv" "new" "old" (by decide)⟩

end XCReport
